import Mathlib

/-!
Verification of the request-batching and pagination-translation core of a
GraphQL-over-REST data-access layer (`HttpApi`).

The embedding mirrors the source: JavaScript values that the code inspects for
truthiness are modelled by `JVal`; promises and thrown invariants by `Except`;
`null`/`undefined` results by `Option`; the backend fetch by an explicit
function argument.  External collaborators that the source calls but that are
not part of the repository (Node's `querystring`, lodash `chunk`/`flatten`,
`graphql-relay`'s `connectionFromArray`, DataLoader's per-key settlement) are
modelled by their documented behaviour, or from the spec where noted.
-/

/-- A JavaScript value, as far as the code under verification inspects one:
it is read for truthiness, serialized into a query string, or carried opaquely
(`obj` stands for any object, identified by a tag). -/
inductive JVal where
  | null
  | undef
  | bool (b : Bool)
  | num (n : Int)
  | str (s : String)
  | obj (id : Nat)
deriving DecidableEq, Repr

/-- JavaScript truthiness (`!!v`): `null`, `undefined`, `false`, `0` and the
empty string are falsy; every object is truthy. -/
def jsTruthy : JVal → Bool
  | JVal.null => false
  | JVal.undef => false
  | JVal.bool b => b
  | JVal.num n => decide (n ≠ 0)
  | JVal.str s => decide (s ≠ "")
  | JVal.obj _ => true

/-- JavaScript `typeof`, as used in the unpaged invariant message. -/
def jsTypeof : JVal → String
  | JVal.null => "object"
  | JVal.undef => "undefined"
  | JVal.bool _ => "boolean"
  | JVal.num _ => "number"
  | JVal.str _ => "string"
  | JVal.obj _ => "object"

/-- An argument mapping (`Args` in the source): a JavaScript object modelled as
its ordered list of entries (JS objects enumerate keys in insertion order). -/
abbrev Args : Type := List (String × JVal)

/-- JavaScript property access `obj[k]` on an object with (unique) keys:
the first entry with the key, if any. -/
def argLookup (k : String) : Args → Option JVal
  | [] => none
  | (k2, v) :: rest => if k2 = k then some v else argLookup k rest

/-- JavaScript spread merge `\x7b...q, ...a\x7d`: `q`'s keys keep their
position but take `a`'s value where both define a key; keys only in `a`
follow, in `a`'s order. -/
def spreadMerge (q a : Args) : Args :=
  List.map (fun kv => match argLookup kv.1 a with
    | some v => (kv.1, v)
    | none => kv) q
  ++ List.filter (fun kv => (argLookup kv.1 q).isNone) a

/-- `String.split(sep)` of JavaScript, on character lists: splits at every
occurrence of the separator, keeping empty pieces. -/
def splitOnChar (c : Char) : List Char → List (List Char)
  | [] => [[]]
  | x :: xs =>
    if x = c then [] :: splitOnChar c xs
    else
      match splitOnChar c xs with
      | r :: rs => (x :: r) :: rs
      | [] => [[x]]

/-- JavaScript `s.split(c)` on Lean strings. -/
def jsSplit (s : String) (c : Char) : List String :=
  List.map String.mk (splitOnChar c s.toList)

/-- Node `querystring.stringify` coercion of a value: strings pass through,
numbers and booleans print, anything else becomes the empty string.
(Array values, which repeat the key, are not needed by any claim and are not
modelled.) -/
def qsValToString : JVal → String
  | JVal.str s => s
  | JVal.num n => toString n
  | JVal.bool b => cond b "true" "false"
  | _ => ""

/-- One `key=value` component of a serialized query string.  Percent-escaping
of reserved characters is not modelled; every input a claim exercises is
alphanumeric, where Node's escaping is the identity. -/
def qsComponent (kv : String × JVal) : String :=
  kv.1 ++ "=" ++ qsValToString kv.2

/-- Node `querystring.stringify`: `key=value` components joined by `&`, in the
object's key insertion order (Node does not sort keys). -/
def qsStringify (args : Args) : String :=
  String.intercalate "&" (List.map qsComponent args)

/-- Node `querystring.parse`: split on `&`, then each piece at its first `=`
into key and value (values kept as strings; percent-decoding and the
duplicate-key-to-array rule are not exercised by any claim). -/
def qsParse (s : String) : Args :=
  List.map (fun piece =>
    match jsSplit piece '=' with
    | [] => ("", JVal.str "")
    | k :: rest => (k, JVal.str (String.intercalate "=" rest)))
    (jsSplit s '&')

/-- `HttpApi.makePath`: merge a base path, its existing query string and an
argument mapping into the canonical request path. -/
def makePath (path : String) (args : Option Args) : String :=
  match args with
  | none => path
  | some args =>
    let parts := jsSplit path '?'
    let pathBase := parts.headD ""
    let searchBase := parts[1]?
    let query : Option Args :=
      match searchBase with
      | some sb => if sb = "" then none else some (qsParse sb)
      | none => none
    let search := qsStringify (spreadMerge (query.getD []) args)
    if search = "" then pathBase else pathBase ++ "?" ++ search

/-- An edge of a connection: a node paired with its cursor (`none` models
JavaScript `null`/`undefined`). -/
structure Edge where
  node : JVal
  cursor : Option String
deriving DecidableEq, Repr

/-- `pageInfo` of a connection. `hasNextPage` is `Option Bool` because the
paged strategy copies the backend's possibly-absent flag verbatim. -/
structure PageInfo where
  startCursor : Option String
  endCursor : Option String
  hasPreviousPage : Bool
  hasNextPage : Option Bool
deriving DecidableEq, Repr

/-- The uniform connection shape (`PaginationResult` in the source):
edges, page info and passthrough `meta`. -/
structure Conn where
  edges : List Edge
  pageInfo : PageInfo
  meta : Args
deriving DecidableEq, Repr

/-- The `meta` of a raw paged backend result, as destructured by the source:
`cursors`, `hasNextPage`, and every remaining field (`rest`). -/
structure PagedMeta where
  cursors : List String
  hasNextPage : Option Bool
  rest : Args
deriving DecidableEq, Repr

/-- A raw paged backend result (`PaginatedApiResult`): an array of items that
may carry a `meta` property (`none` models a result without one). -/
structure PagedApiResult where
  items : List JVal
  meta : Option PagedMeta
deriving DecidableEq, Repr

/-- `items.map((item, i) => (\x7b node: item, cursor: cursors[i] \x7d))`:
pair each item with the cursor at the same position, starting at index `i`. -/
def edgesFrom (cursors : List String) (i : Nat) : List JVal → List Edge
  | [] => []
  | v :: rest => { node := v, cursor := cursors[i]? } :: edgesFrom cursors (i + 1) rest

/-- The invariant message thrown by the paged strategy when `meta` is missing. -/
def errPagedFormat : String :=
  "Unexpected format. `GET` should return an array of items with a " ++
  "`meta` property containing an array of cursors and `hasNextPage`"

/-- The translation step of `HttpApi.getPaginatedConnection`, applied to the
awaited backend result (`none` models a `null`/`undefined` response) with the
destructured `after` argument.  A thrown invariant is `Except.error`. -/
def getPaginatedConnection (after : JVal) (res : Option PagedApiResult) :
    Except String (Option Conn) :=
  match res with
  | none => Except.ok none
  | some items =>
    match items.meta with
    | none => Except.error errPagedFormat
    | some m =>
      let lastIndex := items.items.length - 1
      let hasPreviousPage := jsTruthy after
      Except.ok (some {
        edges := edgesFrom m.cursors 0 items.items
        pageInfo := {
          startCursor :=
            match items.items[0]? with
            | some v => if jsTruthy v then m.cursors[0]? else none
            | none => none
          endCursor :=
            match items.items[lastIndex]? with
            | some v => if jsTruthy v then m.cursors[lastIndex]? else none
            | none => none
          hasPreviousPage := hasPreviousPage
          hasNextPage := m.hasNextPage }
        meta := m.rest })

/-- The request path built by `getPaginatedConnection` before fetching:
`makePath(path, \x7b ...args, cursor: after, limit: first, pageSize: first \x7d)`
where `after` and `first` are destructured out of the incoming arguments. -/
def pagedReqPath (path : String) (args : Args) : String :=
  let after := (argLookup "after" args).getD JVal.undef
  let first := (argLookup "first" args).getD JVal.undef
  let rest := List.filter (fun kv => decide (kv.1 ≠ "after" ∧ kv.1 ≠ "first")) args
  makePath path (some (spreadMerge rest
    [("cursor", after), ("limit", first), ("pageSize", first)]))

/-- `HttpApi.getPaginatedConnection` end to end: build the request path, fetch
through the loader (`backend` models what `this.get` resolves to), translate. -/
def getPaginatedConnectionFull (path : String) (args : Args)
    (backend : String → Option PagedApiResult) : Except String (Option Conn) :=
  let after := (argLookup "after" args).getD JVal.undef
  getPaginatedConnection after (backend (pagedReqPath path args))

/-- The connection-argument keys (`Object.keys(forwardConnectionArgs)` from
graphql-relay): `after` and `first`. -/
def PAGINATION_ARG_KEYS : List String := ["after", "first"]

/-- The cursor encoding of graphql-relay's array connections, one cursor per
array offset (the base64 wrapping is not modelled; cursors stay opaque). -/
def offsetToCursor (i : Nat) : String := "arrayconnection:" ++ toString i

/-- Remove a leading run of elements from a list, or fail. -/
def listDropLead [DecidableEq γ] : List γ → List γ → Option (List γ)
  | [], rest => some rest
  | _ :: _, [] => none
  | p :: ps, x :: xs => if x = p then listDropLead ps xs else none

/-- The numeric value of a decimal digit character. -/
def digitVal (c : Char) : Option Nat :=
  if c.isDigit then some (c.toNat - 48) else none

/-- Parse a nonempty all-digit character list as a natural number. -/
def digitsToNat : List Char → Option Nat
  | [] => none
  | l => List.foldl (fun acc c => acc.bind fun a => (digitVal c).map fun d => a * 10 + d)
      (some 0) l

/-- Decode an array-connection cursor back to its offset, if well-formed. -/
def cursorToOffset (c : String) : Option Nat :=
  match listDropLead ("arrayconnection:".toList) c.toList with
  | some ds => digitsToNat ds
  | none => none

/-- The `after` argument decoded to an offset, with default `-1` when absent,
not a string, or undecodable. -/
def getAfterOffset (args : Args) : Int :=
  match argLookup "after" args with
  | some (JVal.str s) =>
    match cursorToOffset s with
    | some n => (n : Int)
    | none => -1
  | _ => -1

/-- The `first` argument when it is a number. -/
def getFirst (args : Args) : Option Int :=
  match argLookup "first" args with
  | some (JVal.num n) => some n
  | _ => none

/-- What graphql-relay's `connectionFromArray` returns: edges and page info
(the passthrough `meta` is added by the caller). -/
structure ConnCore where
  edges : List Edge
  pageInfo : PageInfo
deriving DecidableEq, Repr

/-- Relay edges for a slice beginning at array offset `start`: each node is
paired with the cursor of its absolute offset. -/
def relayEdgesFrom (start : Nat) : List JVal → List Edge
  | [] => []
  | v :: rest =>
    { node := v, cursor := some (offsetToCursor start) } :: relayEdgesFrom (start + 1) rest

/-- Modelled from the spec: `connectionFromArray` of the external graphql-relay
library is not part of this repository.  Per the spec's unpaged strategy it
applies standard cursor-connection slicing: decode `after` to an offset, slice
to `first` items after it, pair each kept item with its offset cursor, and
report `hasNextPage` exactly when a supplied `first` cut the slice short of
the array's end.  Only the forward arguments `after`/`first` are modelled, as
the source only ever passes those. -/
def connectionFromArray (items : List JVal) (args : Args) : ConnCore :=
  let startOffset : Nat := (max (-1) (getAfterOffset args) + 1).toNat
  let endOffset : Nat :=
    match getFirst args with
    | some f => min items.length (startOffset + f.toNat)
    | none => items.length
  let sliced := (items.take endOffset).drop startOffset
  let edges := relayEdgesFrom startOffset sliced
  { edges := edges
    pageInfo := {
      startCursor := (edges.head?).bind Edge.cursor
      endCursor := (edges.getLast?).bind Edge.cursor
      hasPreviousPage := false
      hasNextPage :=
        match getFirst args with
        | some _ => some (decide (endOffset < items.length))
        | none => some false } }

/-- What an awaited `GET` resolves to for the unpaged strategy, as inspected by
`Array.isArray`: an array of items, or any non-array value (including
`null`/`undefined`). -/
inductive GetResult where
  | arr (items : List JVal)
  | nonArr (v : JVal)
deriving DecidableEq, Repr

/-- The invariant message thrown by the unpaged strategy on a non-array. -/
def errUnpagedFormat (v : JVal) : String :=
  "Expected `GET` to return an array of items, got: " ++ jsTypeof v ++ " instead"

/-- The request path of `getUnpaginatedConnection`: `makePath` over the
arguments with the pagination keys omitted (lodash `omit`). -/
def unpagedReqPath (path : String) (args : Args) : String :=
  makePath path (some (List.filter (fun kv => decide (kv.1 ∉ PAGINATION_ARG_KEYS)) args))

/-- The pagination-only arguments (lodash `pick` with `PAGINATION_ARG_KEYS`;
`pick` orders entries by the key list, but the relay slicing only ever looks
keys up by name, so entry order is irrelevant downstream). -/
def pickPaginationArgs (args : Args) : Args :=
  List.filter (fun kv => decide (kv.1 ∈ PAGINATION_ARG_KEYS)) args

/-- `HttpApi.getUnpaginatedConnection`: fetch the full collection with the
filter-only arguments, require an array, and paginate client-side. -/
def getUnpaginatedConnection (path : String) (args : Args)
    (backend : String → GetResult) : Except String (Option Conn) :=
  match backend (unpagedReqPath path args) with
  | GetResult.nonArr v => Except.error (errUnpagedFormat v)
  | GetResult.arr items =>
    let core := connectionFromArray items (pickPaginationArgs args)
    Except.ok (some { edges := core.edges, pageInfo := core.pageInfo, meta := [] })

/-- The default chunk size of the keyed bulk loader (`numKeysPerChunk`). -/
def numKeysPerChunk : Nat := 25

/-- lodash `chunk`: consecutive slices of `n` elements, the last possibly
shorter; `[]` when the size is `0`. -/
def chunkList (n : Nat) (xs : List γ) : List (List γ) :=
  if _h : n = 0 then [] else
  match xs with
  | [] => []
  | x :: rest => ((x :: rest).take n) :: chunkList n ((x :: rest).drop n)
termination_by xs.length
decreasing_by simp [List.length_drop]; omega

/-- lodash `flatten` over chunk results: one level of flattening, keeping a
`null` chunk result (a non-array) as a single `none` element. -/
def flattenMaybe (cs : List (Option (List (Option γ)))) : List (Option γ) :=
  (List.map (fun c => match c with | none => [none] | some xs => xs) cs).flatten

/-- The items a bulk-loader batch works with: fetch every chunk, flatten, and
drop `null`/`undefined` entries (`filter(item => !!item)`; the items of the
typed source are records, which are always truthy). -/
def loaderItems (n : Nat) (request : List String → Option (List (Option γ)))
    (keys : List String) : List γ :=
  (flattenMaybe (List.map request (chunkList n keys))).filterMap id

/-- `keys.forEach(key => itemsByKey[key] = [])`: the demux table with every
requested key initialised to an empty list. -/
def demuxInit (keys : List String) : String → Option (List γ) :=
  List.foldl (fun tbl key => fun k2 => if k2 = key then some [] else tbl k2)
    (fun _ => none) keys

/-- One iteration of the demux loop: append the item to the list of its
computed key when that key is in the table, else leave the table unchanged. -/
def demuxStep (getKey : γ → String) (tbl : String → Option (List γ)) (item : γ) :
    String → Option (List γ) :=
  let k := getKey item
  match tbl k with
  | some l => fun k2 => if k2 = k then some (l ++ [item]) else tbl k2
  | none => tbl

/-- The demultiplexing step of `createLoader`: initialise every requested key,
append each item to its key's list in arrival order, and read the table back
in the original key order. -/
def demux (keys : List String) (getKey : γ → String) (items : List γ) :
    List (List γ) :=
  let tbl := List.foldl (demuxStep getKey) (demuxInit keys) items
  List.map (fun k => (tbl k).getD []) keys

/-- The batch function `createLoader` installs in its DataLoader: chunk the
keys, bulk-fetch each chunk, flatten and filter, demultiplex per key. -/
def createLoaderBatchFn (n : Nat) (request : List String → Option (List (Option γ)))
    (getKey : γ → String) (keys : List String) : List (List γ) :=
  demux keys getKey (loaderItems n request keys)

/-- `.catch(e => e)` on a promise: a rejection becomes a fulfilled promise
whose value is the failure. -/
def jsCatch (p : Except ε α) : Except ε (α ⊕ ε) :=
  match p with
  | Except.ok v => Except.ok (Sum.inl v)
  | Except.error e => Except.ok (Sum.inr e)

/-- `Promise.all`: fulfil with every value in order, or reject with a
rejection of any element. -/
def promiseAll (ps : List (Except ε β)) : Except ε (List β) :=
  match ps with
  | [] => Except.ok []
  | p :: rest =>
    match p with
    | Except.error e => Except.error e
    | Except.ok v =>
      match promiseAll rest with
      | Except.error e => Except.error e
      | Except.ok vs => Except.ok (v :: vs)

/-- The batch function the `HttpApi` constructor installs in its single-key
DataLoader: fetch every path, catching each failure into its own slot so one
failed request cannot reject the whole batch. -/
def singleLoaderBatchFn (request : String → Except ε α) (paths : List String) :
    Except ε (List (α ⊕ ε)) :=
  promiseAll (List.map (fun p => jsCatch (request p)) paths)

/-- Modelled from the spec: DataLoader (an external library) settles each
key's promise from the batch value at that key's position, rejecting the
individual promise when the value is a failure and resolving it otherwise. -/
def dataLoaderSettle (v : α ⊕ ε) : Except ε α :=
  match v with
  | Sum.inl a => Except.ok a
  | Sum.inr e => Except.error e

/-- The per-path outcomes of one single-key-loader batch window: the batch
function's result with every slot settled as DataLoader would. -/
def loadOutcomes (request : String → Except ε α) (paths : List String) :
    Except ε (List (Except ε α)) :=
  Except.map (List.map dataLoaderSettle) (singleLoaderBatchFn request paths)

/-- The existing query of a path, as `makePath` extracts it: the part after
the first `?`, parsed, or empty when absent or blank. -/
def existingQuery (path : String) : Args :=
  match (jsSplit path '?')[1]? with
  | some sb => if sb = "" then [] else qsParse sb
  | none => []

/-- Reassemble a base and serialized query components the way `makePath`
returns them: the bare base when the serialization is empty. -/
def qsJoin (base : String) (comps : List String) : String :=
  if String.intercalate "&" comps = "" then base
  else base ++ "?" ++ String.intercalate "&" comps

theorem makePath_eq_qsJoin (path : String) (a : Args) :
    makePath path (some a) =
      qsJoin ((jsSplit path '?').headD "")
        (List.map qsComponent (spreadMerge (existingQuery path) a)) := by
  unfold makePath qsJoin existingQuery qsStringify
  cases h : (jsSplit path '?')[1]? with
  | none => simp [h]
  | some sb =>
    by_cases hsb : sb = "" <;> simp [h, hsb]

theorem argLookup_perm_eq {a1 a2 : Args} (h : a1.Perm a2)
    (nd : (List.map Prod.fst a1).Nodup) (k : String) :
    argLookup k a1 = argLookup k a2 := by
  induction h with
  | nil => rfl
  | cons x p ih =>
    obtain ⟨xk, xv⟩ := x
    simp only [List.map_cons, List.nodup_cons] at nd
    by_cases hk : xk = k <;> simp [argLookup, hk, ih nd.2]
  | swap x y l =>
    obtain ⟨xk, xv⟩ := x
    obtain ⟨yk, yv⟩ := y
    simp only [List.map_cons, List.nodup_cons, List.mem_cons] at nd
    have hxy : yk ≠ xk := fun hEq => nd.1 (Or.inl hEq)
    by_cases h1 : xk = k <;> by_cases h2 : yk = k <;>
      simp [argLookup, h1, h2]
    exact absurd (h1.trans h2.symm) (fun hEq => hxy hEq.symm)
  | trans p1 p2 ih1 ih2 =>
    have nd2 := ((p1.map Prod.fst).nodup_iff).mp nd
    rw [ih1 nd, ih2 nd2]

theorem spreadMerge_perm (q : Args) {a1 a2 : Args} (h : a1.Perm a2)
    (nd : (List.map Prod.fst a1).Nodup) :
    (spreadMerge q a1).Perm (spreadMerge q a2) := by
  unfold spreadMerge
  refine List.Perm.append ?_ (h.filter _)
  have : ∀ kv ∈ q,
      (match argLookup kv.1 a1 with
        | some v => (kv.1, v)
        | none => kv) =
      (match argLookup kv.1 a2 with
        | some v => (kv.1, v)
        | none => kv) := by
    intro kv _
    rw [argLookup_perm_eq h nd]
  rw [List.map_congr_left this]

/-- Claim C2, counterexample: `makePath` serializes arguments in key insertion
order, so the same key-value pairs supplied in reverse order produce two
different canonical path strings. -/
theorem claim2_makePath_order_counterexample :
    makePath "/x" (some [("a", JVal.str "1"), ("b", JVal.str "2")]) ≠
    makePath "/x" (some [("b", JVal.str "2"), ("a", JVal.str "1")]) := by
  decide

/-- Claim C2 (amended): for every path and every pair of argument mappings
containing the same key-value pairs (differing only in the order the keys are
supplied), `makePath` produces canonical paths with the same base and the same
collection of `key=value` query components; only the component order follows
the supplied key order, so the path strings themselves are identical exactly
when the serialization order coincides. -/
theorem claim2_makePath_components_order_independent (path : String)
    (a1 a2 : Args) (hperm : a1.Perm a2) (hnd : (List.map Prod.fst a1).Nodup) :
    ∃ base c1 c2, c1.Perm c2 ∧
      makePath path (some a1) = qsJoin base c1 ∧
      makePath path (some a2) = qsJoin base c2 := by
  refine ⟨(jsSplit path '?').headD "",
    List.map qsComponent (spreadMerge (existingQuery path) a1),
    List.map qsComponent (spreadMerge (existingQuery path) a2),
    (spreadMerge_perm _ hperm hnd).map qsComponent,
    makePath_eq_qsJoin path a1, makePath_eq_qsJoin path a2⟩

/-- Witness for Claim C2's amended theorem at a concrete reversed pair. -/
theorem claim2_witness :
    (([("a", JVal.str "1"), ("b", JVal.str "2")] : Args).Perm
      [("b", JVal.str "2"), ("a", JVal.str "1")] ∧
     (List.map Prod.fst ([("a", JVal.str "1"), ("b", JVal.str "2")] : Args)).Nodup) ∧
    (∃ base c1 c2, c1.Perm c2 ∧
      makePath "/x" (some [("a", JVal.str "1"), ("b", JVal.str "2")]) = qsJoin base c1 ∧
      makePath "/x" (some [("b", JVal.str "2"), ("a", JVal.str "1")]) = qsJoin base c2) :=
  ⟨⟨by decide, by decide⟩,
    claim2_makePath_components_order_independent "/x" _ _ (by decide) (by decide)⟩

theorem edgesFrom_length (cursors : List String) (i : Nat) (items : List JVal) :
    (edgesFrom cursors i items).length = items.length := by
  induction items generalizing i with
  | nil => rfl
  | cons v rest ih => simp [edgesFrom, ih]

theorem edgesFrom_getElem? (cursors : List String) (items : List JVal)
    (i j : Nat) (v : JVal) (h : items[j]? = some v) :
    (edgesFrom cursors i items)[j]? =
      some { node := v, cursor := cursors[i + j]? } := by
  induction items generalizing i j with
  | nil => simp at h
  | cons x rest ih =>
    cases j with
    | zero =>
      simp only [List.getElem?_cons_zero, Option.some.injEq] at h
      subst h
      simp [edgesFrom]
    | succ j2 =>
      simp only [List.getElem?_cons_succ] at h
      have hrw : i + (j2 + 1) = (i + 1) + j2 := by omega
      rw [hrw]
      simpa [edgesFrom] using ih (i + 1) j2 h

/-- Claim C1, counterexample: a non-empty page whose only item is the falsy
value `0` gets `startCursor = null` even though `meta.cursors[0]` is `"c0"`;
the claim as stated demands `startCursor = "c0"` because the page is
non-empty. -/
theorem claim1_startCursor_counterexample :
    ∃ c : Conn, getPaginatedConnection JVal.null
        (some ({ items := [JVal.num 0],
                 meta := some { cursors := ["c0"], hasNextPage := some true,
                                rest := [] } } : PagedApiResult)) = Except.ok (some c) ∧
      c.edges.length = 1 ∧ c.pageInfo.startCursor = none := by
  exact ⟨_, rfl, by decide, by decide⟩

/-- Claim C1 (amended): for every non-null paged backend result with meta
`(cursors, hasNextPage)`, `getPaginatedConnection` returns a connection whose
edges pair item `i` with `cursors[i]` positionally in item order, whose
`pageInfo.hasPreviousPage` equals `Boolean(after)`, whose `hasNextPage` is the
backend's `hasNextPage` verbatim, whose remaining meta passes through, and
whose `startCursor` (resp. `endCursor`) is the first (resp. last) cursor when
the first (resp. last) item is truthy, and null when the page is empty or that
boundary item is falsy. -/
theorem claim1_paged_translation (after : JVal) (r : PagedApiResult)
    (m : PagedMeta) (hm : r.meta = some m) :
    ∃ c : Conn, getPaginatedConnection after (some r) = Except.ok (some c) ∧
      c.edges.length = r.items.length ∧
      (∀ (j : Nat) (v : JVal), r.items[j]? = some v →
        c.edges[j]? = some ({ node := v, cursor := m.cursors[j]? } : Edge)) ∧
      c.pageInfo.hasPreviousPage = jsTruthy after ∧
      c.pageInfo.hasNextPage = m.hasNextPage ∧
      c.pageInfo.startCursor =
        (match r.items[0]? with
          | some v => if jsTruthy v then m.cursors[0]? else none
          | none => none) ∧
      c.pageInfo.endCursor =
        (match r.items[r.items.length - 1]? with
          | some v => if jsTruthy v then m.cursors[r.items.length - 1]? else none
          | none => none) ∧
      c.meta = m.rest := by
  obtain ⟨items, metaOpt⟩ := r
  simp only at hm
  subst hm
  refine ⟨_, rfl, edgesFrom_length m.cursors 0 items, ?_, rfl, rfl, rfl, rfl, rfl⟩
  intro j v hv
  simp only at hv
  simpa using edgesFrom_getElem? m.cursors items 0 j v hv

/-- Witness for Claim C1's amended theorem on a two-item page. -/
theorem claim1_witness :
    ({ items := [JVal.obj 1, JVal.obj 2],
       meta := some { cursors := ["c0", "c1"], hasNextPage := some true,
                      rest := [("total", JVal.num 7)] } } : PagedApiResult).meta =
      some { cursors := ["c0", "c1"], hasNextPage := some true,
             rest := [("total", JVal.num 7)] } ∧
    ∃ c : Conn, getPaginatedConnection (JVal.str "cur")
        (some ({ items := [JVal.obj 1, JVal.obj 2],
                 meta := some { cursors := ["c0", "c1"], hasNextPage := some true,
                                rest := [("total", JVal.num 7)] } } : PagedApiResult)) =
          Except.ok (some c) ∧
      c.edges.length = ([JVal.obj 1, JVal.obj 2] : List JVal).length ∧
      (∀ (j : Nat) (v : JVal), ([JVal.obj 1, JVal.obj 2] : List JVal)[j]? = some v →
        c.edges[j]? = some ({ node := v, cursor := (["c0", "c1"] : List String)[j]? } : Edge)) ∧
      c.pageInfo.hasPreviousPage = jsTruthy (JVal.str "cur") ∧
      c.pageInfo.hasNextPage = some true ∧
      c.pageInfo.startCursor =
        (match ([JVal.obj 1, JVal.obj 2] : List JVal)[0]? with
          | some v => if jsTruthy v then (["c0", "c1"] : List String)[0]? else none
          | none => none) ∧
      c.pageInfo.endCursor =
        (match ([JVal.obj 1, JVal.obj 2] : List JVal)[([JVal.obj 1, JVal.obj 2] : List JVal).length - 1]? with
          | some v => if jsTruthy v then (["c0", "c1"] : List String)[([JVal.obj 1, JVal.obj 2] : List JVal).length - 1]? else none
          | none => none) ∧
      c.meta = [("total", JVal.num 7)] :=
  ⟨rfl, claim1_paged_translation (JVal.str "cur")
    ({ items := [JVal.obj 1, JVal.obj 2],
       meta := some { cursors := ["c0", "c1"], hasNextPage := some true,
                      rest := [("total", JVal.num 7)] } } : PagedApiResult)
    ({ cursors := ["c0", "c1"], hasNextPage := some true,
       rest := [("total", JVal.num 7)] } : PagedMeta) rfl⟩

/-- Claim C9: in `getPaginatedConnection`, `startCursor` (resp. `endCursor`)
is null whenever the first (resp. last) item of the page is falsy, even when
the page is non-empty and the corresponding cursor exists in `meta.cursors`. -/
theorem claim9_falsy_boundary_null_cursor (after : JVal) (r : PagedApiResult)
    (m : PagedMeta) (hm : r.meta = some m) :
    ∃ c : Conn, getPaginatedConnection after (some r) = Except.ok (some c) ∧
      (∀ v, r.items.head? = some v → jsTruthy v = false →
        c.pageInfo.startCursor = none) ∧
      (∀ v, r.items.getLast? = some v → jsTruthy v = false →
        c.pageInfo.endCursor = none) := by
  obtain ⟨items, metaOpt⟩ := r
  simp only at hm
  subst hm
  refine ⟨_, rfl, ?_, ?_⟩
  · intro v hv hfalsy
    rw [List.head?_eq_getElem?] at hv
    simp [hv, hfalsy]
  · intro v hv hfalsy
    rw [List.getLast?_eq_getElem?] at hv
    simp [hv, hfalsy]

/-- Witness for Claim C9 on a non-empty page whose boundary items are the
falsy values `0` and the empty string, while cursors exist for both. -/
theorem claim9_witness :
    ({ items := [JVal.num 0, JVal.str ""],
       meta := some { cursors := ["c0", "c1"], hasNextPage := some false,
                      rest := [] } } : PagedApiResult).meta =
      some { cursors := ["c0", "c1"], hasNextPage := some false, rest := [] } ∧
    ∃ c : Conn, getPaginatedConnection JVal.undef
        (some ({ items := [JVal.num 0, JVal.str ""],
                 meta := some { cursors := ["c0", "c1"], hasNextPage := some false,
                                rest := [] } } : PagedApiResult)) = Except.ok (some c) ∧
      (∀ v, ([JVal.num 0, JVal.str ""] : List JVal).head? = some v →
        jsTruthy v = false → c.pageInfo.startCursor = none) ∧
      (∀ v, ([JVal.num 0, JVal.str ""] : List JVal).getLast? = some v →
        jsTruthy v = false → c.pageInfo.endCursor = none) :=
  ⟨rfl, claim9_falsy_boundary_null_cursor JVal.undef
    ({ items := [JVal.num 0, JVal.str ""],
       meta := some { cursors := ["c0", "c1"], hasNextPage := some false,
                      rest := [] } } : PagedApiResult)
    ({ cursors := ["c0", "c1"], hasNextPage := some false, rest := [] } : PagedMeta) rfl⟩

/-- Claim C3: for a paged connection request, a null backend result propagates
as a null overall result, while a non-null empty page yields a connection with
zero edges; the two are distinguishable at the public interface. -/
theorem claim3_null_propagation (path : String) (args : Args)
    (backend : String → Option PagedApiResult) :
    (backend (pagedReqPath path args) = none →
      getPaginatedConnectionFull path args backend = Except.ok none) ∧
    (∀ m : PagedMeta,
      backend (pagedReqPath path args) =
          some ({ items := [], meta := some m } : PagedApiResult) →
      ∃ c : Conn, getPaginatedConnectionFull path args backend =
          Except.ok (some c) ∧ c.edges = []) := by
  constructor
  · intro h
    unfold getPaginatedConnectionFull
    rw [h]
    rfl
  · intro m h
    unfold getPaginatedConnectionFull
    rw [h]
    exact ⟨_, rfl, rfl⟩

/-- An empty page with empty passthrough meta, for Claim C3's witness. -/
def claim3EmptyPage : PagedApiResult :=
  { items := [], meta := some { cursors := [], hasNextPage := some false, rest := [] } }

/-- Witness for Claim C3: a backend that returns null, and one that returns an
empty page, at a concrete path. -/
theorem claim3_witness :
    ((fun _ => none : String → Option PagedApiResult) (pagedReqPath "/p" []) = none ∧
      getPaginatedConnectionFull "/p" [] (fun _ => none) = Except.ok none) ∧
    ((fun _ => some claim3EmptyPage : String → Option PagedApiResult)
        (pagedReqPath "/p" []) =
        some ({ items := [], meta := some { cursors := [], hasNextPage := some false,
                                            rest := [] } } : PagedApiResult) ∧
      ∃ c : Conn, getPaginatedConnectionFull "/p" [] (fun _ => some claim3EmptyPage) =
          Except.ok (some c) ∧ c.edges = []) :=
  ⟨⟨rfl, (claim3_null_propagation "/p" [] (fun _ => none)).1 rfl⟩,
   ⟨rfl, (claim3_null_propagation "/p" [] (fun _ => some claim3EmptyPage)).2
      ({ cursors := [], hasNextPage := some false, rest := [] } : PagedMeta) rfl⟩⟩

/-- Claim C4: a paged result without a `meta` property makes
`getPaginatedConnection` throw its format invariant, and a non-array result
makes `getUnpaginatedConnection` throw its array invariant; neither call
returns a connection value. -/
theorem claim4_contract_violation :
    (∀ (after : JVal) (items : List JVal),
      getPaginatedConnection after
          (some ({ items := items, meta := none } : PagedApiResult)) =
        Except.error errPagedFormat) ∧
    (∀ (path : String) (args : Args) (backend : String → GetResult) (v : JVal),
      backend (unpagedReqPath path args) = GetResult.nonArr v →
      getUnpaginatedConnection path args backend =
        Except.error (errUnpagedFormat v)) := by
  constructor
  · intro after items
    rfl
  · intro path args backend v h
    unfold getUnpaginatedConnection
    rw [h]

/-- Witness for Claim C4: a concrete paged result with no `meta`, and a
backend returning the non-array `null` for an unpaged request. -/
theorem claim4_witness :
    getPaginatedConnection JVal.undef
        (some ({ items := [JVal.obj 1], meta := none } : PagedApiResult)) =
      Except.error errPagedFormat ∧
    ((fun _ => GetResult.nonArr (JVal.obj 0) : String → GetResult)
        (unpagedReqPath "/q" []) = GetResult.nonArr (JVal.obj 0) ∧
      getUnpaginatedConnection "/q" [] (fun _ => GetResult.nonArr (JVal.obj 0)) =
        Except.error (errUnpagedFormat (JVal.obj 0))) :=
  ⟨claim4_contract_violation.1 JVal.undef [JVal.obj 1],
   rfl, claim4_contract_violation.2 "/q" [] _ (JVal.obj 0) rfl⟩

/-- Claim C10: `getUnpaginatedConnection` never resolves to a null connection;
a `null`/`undefined` backend result fails the `Array.isArray` invariant and
throws, so paged-style null propagation does not apply to the unpaged
strategy. -/
theorem claim10_unpaged_never_null (path : String) (args : Args)
    (backend : String → GetResult) :
    getUnpaginatedConnection path args backend ≠ Except.ok none ∧
    (∀ v : JVal, v = JVal.null ∨ v = JVal.undef →
      backend (unpagedReqPath path args) = GetResult.nonArr v →
      getUnpaginatedConnection path args backend =
        Except.error (errUnpagedFormat v)) := by
  constructor
  · unfold getUnpaginatedConnection
    cases backend (unpagedReqPath path args) <;> simp
  · intro v _ h
    unfold getUnpaginatedConnection
    rw [h]

/-- Witness for Claim C10 with a backend that resolves to `null`. -/
theorem claim10_witness :
    getUnpaginatedConnection "/r" [] (fun _ => GetResult.nonArr JVal.null) ≠
      Except.ok none ∧
    (JVal.null = JVal.null ∨ JVal.null = JVal.undef) ∧
    (fun _ => GetResult.nonArr JVal.null : String → GetResult)
        (unpagedReqPath "/r" []) = GetResult.nonArr JVal.null ∧
    getUnpaginatedConnection "/r" [] (fun _ => GetResult.nonArr JVal.null) =
      Except.error (errUnpagedFormat JVal.null) :=
  ⟨(claim10_unpaged_never_null "/r" [] _).1, Or.inl rfl, rfl,
   (claim10_unpaged_never_null "/r" [] _).2 JVal.null (Or.inl rfl) rfl⟩

theorem relayEdgesFrom_length (start : Nat) (l : List JVal) :
    (relayEdgesFrom start l).length = l.length := by
  induction l generalizing start with
  | nil => rfl
  | cons v rest ih => simp [relayEdgesFrom, ih]

/-- Claim C7: `getUnpaginatedConnection` consults the backend only at the path
built from the filter-only arguments; an array result is paginated client-side
from the pagination arguments alone with empty output meta; and a full array
of 10 items fetched with `first = 3` yields exactly 3 edges with
`hasNextPage = true`. -/
theorem claim7_unpaged_translation :
    (∀ (path : String) (args : Args) (b1 b2 : String → GetResult),
      b1 (unpagedReqPath path args) = b2 (unpagedReqPath path args) →
      getUnpaginatedConnection path args b1 = getUnpaginatedConnection path args b2) ∧
    (∀ (path : String) (args : Args) (backend : String → GetResult)
        (items : List JVal),
      backend (unpagedReqPath path args) = GetResult.arr items →
      ∃ c : Conn, getUnpaginatedConnection path args backend = Except.ok (some c) ∧
        c.edges = (connectionFromArray items (pickPaginationArgs args)).edges ∧
        c.pageInfo = (connectionFromArray items (pickPaginationArgs args)).pageInfo ∧
        c.meta = []) ∧
    (∀ (path : String) (filters : Args) (backend : String → GetResult)
        (items : List JVal),
      items.length = 10 →
      backend (unpagedReqPath path (filters ++ [("first", JVal.num 3)])) =
        GetResult.arr items →
      (∀ kv ∈ filters, kv.1 ∉ PAGINATION_ARG_KEYS) →
      ∃ c : Conn,
        getUnpaginatedConnection path (filters ++ [("first", JVal.num 3)]) backend =
          Except.ok (some c) ∧
        c.edges.length = 3 ∧ c.pageInfo.hasNextPage = some true ∧ c.meta = []) := by
  refine ⟨?_, ?_, ?_⟩
  · intro path args b1 b2 h
    unfold getUnpaginatedConnection
    rw [h]
  · intro path args backend items h
    unfold getUnpaginatedConnection
    rw [h]
    exact ⟨_, rfl, rfl, rfl, rfl⟩
  · intro path filters backend items hlen hb hfilters
    have hpick : pickPaginationArgs (filters ++ [("first", JVal.num 3)]) =
        [("first", JVal.num 3)] := by
      unfold pickPaginationArgs
      rw [List.filter_append]
      have h1 : List.filter (fun kv => decide (kv.1 ∈ PAGINATION_ARG_KEYS)) filters
          = [] := by
        rw [List.filter_eq_nil_iff]
        intro kv hkv
        simpa using hfilters kv hkv
      rw [h1]
      rfl
    unfold getUnpaginatedConnection
    rw [hb, hpick]
    refine ⟨_, rfl, ?_, ?_, rfl⟩
    · simp [connectionFromArray, getFirst, getAfterOffset, argLookup,
        relayEdgesFrom_length, List.length_drop, List.length_take, hlen]
    · simp [connectionFromArray, getFirst, getAfterOffset, argLookup, hlen]

/-- A backend resolving every path to a full array of 10 items, for Claim
C7's witness. -/
def claim7Backend : String → GetResult :=
  fun _ => GetResult.arr (List.map JVal.obj (List.range 10))

/-- Witness for Claim C7: 10 items fetched with `first = 3` and one filter
argument, plus the backend-dependence and translation parts at the same
input. -/
theorem claim7_witness :
    (claim7Backend (unpagedReqPath "/u" [("q", JVal.str "z")]) =
        claim7Backend (unpagedReqPath "/u" [("q", JVal.str "z")]) ∧
      getUnpaginatedConnection "/u" [("q", JVal.str "z")] claim7Backend =
        getUnpaginatedConnection "/u" [("q", JVal.str "z")] claim7Backend) ∧
    (claim7Backend (unpagedReqPath "/u" [("q", JVal.str "z")]) =
        GetResult.arr (List.map JVal.obj (List.range 10)) ∧
      ∃ c : Conn, getUnpaginatedConnection "/u" [("q", JVal.str "z")] claim7Backend =
          Except.ok (some c) ∧
        c.edges = (connectionFromArray (List.map JVal.obj (List.range 10))
          (pickPaginationArgs [("q", JVal.str "z")])).edges ∧
        c.pageInfo = (connectionFromArray (List.map JVal.obj (List.range 10))
          (pickPaginationArgs [("q", JVal.str "z")])).pageInfo ∧
        c.meta = []) ∧
    ((List.map JVal.obj (List.range 10)).length = 10 ∧
      claim7Backend (unpagedReqPath "/u"
          ([("q", JVal.str "z")] ++ [("first", JVal.num 3)])) =
        GetResult.arr (List.map JVal.obj (List.range 10)) ∧
      (∀ kv ∈ ([("q", JVal.str "z")] : Args), kv.1 ∉ PAGINATION_ARG_KEYS) ∧
      ∃ c : Conn,
        getUnpaginatedConnection "/u" ([("q", JVal.str "z")] ++ [("first", JVal.num 3)])
            claim7Backend = Except.ok (some c) ∧
        c.edges.length = 3 ∧ c.pageInfo.hasNextPage = some true ∧ c.meta = []) :=
  ⟨⟨rfl, claim7_unpaged_translation.1 "/u" [("q", JVal.str "z")]
      claim7Backend claim7Backend rfl⟩,
   ⟨rfl, claim7_unpaged_translation.2.1 "/u" [("q", JVal.str "z")] claim7Backend
      (List.map JVal.obj (List.range 10)) rfl⟩,
   by decide, rfl, by decide,
   claim7_unpaged_translation.2.2 "/u" [("q", JVal.str "z")] claim7Backend
      (List.map JVal.obj (List.range 10)) (by decide) rfl (by decide)⟩

theorem demuxInit_apply (keys : List String) (k : String) :
    demuxInit (γ := γ) keys k = if k ∈ keys then some [] else none := by
  have go : ∀ (ks : List String) (tbl : String → Option (List γ)) (k2 : String),
      List.foldl (fun tbl key => fun k3 => if k3 = key then some [] else tbl k3)
        tbl ks k2 = if k2 ∈ ks then some [] else tbl k2 := by
    intro ks
    induction ks with
    | nil => intro tbl k2; simp
    | cons key rest ih =>
      intro tbl k2
      simp only [List.foldl_cons]
      rw [ih]
      by_cases hk : k2 ∈ rest
      · simp [hk]
      · by_cases hkey : k2 = key <;> simp [hk, hkey]
  exact go keys (fun _ => none) k

theorem demuxFold_apply (getKey : γ → String) (keys : List String) :
    ∀ (items : List γ) (tbl : String → Option (List γ)) (f : String → List γ),
    (∀ k, tbl k = if k ∈ keys then some (f k) else none) →
    ∀ k, List.foldl (demuxStep getKey) tbl items k =
      if k ∈ keys then
        some (f k ++ List.filter (fun it => decide (getKey it = k)) items)
      else none := by
  intro items
  induction items with
  | nil =>
    intro tbl f h k
    rw [List.foldl_nil, h k]
    by_cases hk : k ∈ keys <;> simp [hk]
  | cons it rest ih =>
    intro tbl f h k
    rw [List.foldl_cons]
    have hstep : ∀ k2, demuxStep getKey tbl it k2 =
        if k2 ∈ keys then
          some (f k2 ++ if getKey it = k2 then [it] else [])
        else none := by
      intro k2
      unfold demuxStep
      rw [h (getKey it)]
      by_cases hmem : getKey it ∈ keys
      · simp only [hmem, if_true]
        by_cases hk2 : k2 = getKey it
        · subst hk2
          simp [hmem]
        · rw [if_neg hk2, h k2]
          have hne : ¬getKey it = k2 := fun hEq => hk2 (Eq.symm hEq)
          by_cases hk2m : k2 ∈ keys <;> simp [hk2m, hne]
      · simp only [hmem, if_false]
        rw [h k2]
        by_cases hk2m : k2 ∈ keys
        · have : getKey it ≠ k2 := fun hEq => hmem (hEq ▸ hk2m)
          simp [hk2m, this]
        · simp [hk2m]
    rw [ih (demuxStep getKey tbl it) _ hstep k]
    by_cases hk : k ∈ keys
    · simp only [hk, if_true, Option.some.injEq]
      rw [List.filter_cons]
      by_cases hit : getKey it = k <;> simp [hit, List.append_assoc]
    · simp [hk]

theorem demux_eq_map_filter (keys : List String) (getKey : γ → String)
    (items : List γ) :
    demux keys getKey items =
      List.map (fun k => List.filter (fun it => decide (getKey it = k)) items)
        keys := by
  unfold demux
  have h := demuxFold_apply getKey keys items (demuxInit keys) (fun _ => [])
    (fun k => demuxInit_apply keys k)
  apply List.map_congr_left
  intro k hk
  rw [h k]
  simp [hk]

theorem chunkList_nil (n : Nat) : chunkList n ([] : List γ) = [] := by
  rw [chunkList]
  by_cases h : n = 0 <;> simp [h]

theorem chunkList_cons (n : Nat) (hne : n ≠ 0) (a : γ) (t : List γ) :
    chunkList n (a :: t) = (a :: t).take n :: chunkList n ((a :: t).drop n) := by
  rw [chunkList]
  simp [hne]

theorem chunkList_flatten (n : Nat) (hn : 0 < n) (xs : List γ) :
    (chunkList n xs).flatten = xs := by
  have hne : n ≠ 0 := Nat.pos_iff_ne_zero.mp hn
  have go : ∀ (len : Nat) (ys : List γ), ys.length ≤ len →
      (chunkList n ys).flatten = ys := by
    intro len
    induction len with
    | zero =>
      intro ys hy
      cases ys with
      | nil => simp [chunkList_nil]
      | cons a t => simp at hy
    | succ len ih =>
      intro ys hy
      cases ys with
      | nil => simp [chunkList_nil]
      | cons a t =>
        rw [chunkList_cons n hne, List.flatten_cons,
          ih ((a :: t).drop n) (by simp [List.length_drop] at hy ⊢; omega)]
        exact List.take_append_drop n (a :: t)
  exact go xs.length xs (Nat.le_refl _)

theorem chunkList_mem_length (n : Nat) (hn : 0 < n) (xs : List γ) :
    ∀ c ∈ chunkList n xs, 0 < c.length ∧ c.length ≤ n := by
  have hne : n ≠ 0 := Nat.pos_iff_ne_zero.mp hn
  have go : ∀ (len : Nat) (ys : List γ), ys.length ≤ len →
      ∀ c ∈ chunkList n ys, 0 < c.length ∧ c.length ≤ n := by
    intro len
    induction len with
    | zero =>
      intro ys hy c hc
      cases ys with
      | nil => rw [chunkList_nil] at hc; simp at hc
      | cons a t => simp at hy
    | succ len ih =>
      intro ys hy c hc
      cases ys with
      | nil => rw [chunkList_nil] at hc; simp at hc
      | cons a t =>
        rw [chunkList_cons n hne] at hc
        rcases List.mem_cons.mp hc with h1 | h2
        · subst h1
          constructor
          · simp [List.length_take]
            omega
          · simp [List.length_take]
        · exact ih ((a :: t).drop n)
            (by simp [List.length_drop] at hy ⊢; omega) c h2
  exact go xs.length xs (Nat.le_refl _)

/-- The list of chunk sizes produced by splitting `len` elements into chunks
of `n`: used only to state the chunk-size shape of `chunkList`. -/
def sizesList (n : Nat) (len : Nat) : List Nat :=
  if _h : n = 0 ∨ len = 0 then [] else min n len :: sizesList n (len - n)
termination_by len
decreasing_by omega

theorem chunkList_map_length (n : Nat) (hn : 0 < n) (xs : List γ) :
    (chunkList n xs).map List.length = sizesList n xs.length := by
  have hne : n ≠ 0 := Nat.pos_iff_ne_zero.mp hn
  have go : ∀ (len : Nat) (ys : List γ), ys.length ≤ len →
      (chunkList n ys).map List.length = sizesList n ys.length := by
    intro len
    induction len with
    | zero =>
      intro ys hy
      cases ys with
      | nil =>
        rw [chunkList_nil, sizesList]
        simp
      | cons a t => simp at hy
    | succ len ih =>
      intro ys hy
      cases ys with
      | nil =>
        rw [chunkList_nil, sizesList]
        simp
      | cons a t =>
        have hcond : ¬(n = 0 ∨ (a :: t).length = 0) := by simp [hne]
        have hrhs : sizesList n (a :: t).length =
            min n (a :: t).length :: sizesList n ((a :: t).length - n) := by
          rw [sizesList, dif_neg hcond]
        rw [chunkList_cons n hne, List.map_cons, hrhs,
          ih ((a :: t).drop n) (by simp [List.length_drop] at hy ⊢; omega)]
        simp [List.length_take, List.length_drop, Nat.min_comm]
  exact go xs.length xs (Nat.le_refl _)

theorem sizesList_full (n : Nat) (hn : 0 < n) :
    ∀ (len i : Nat), i + 1 < (sizesList n len).length →
      (sizesList n len)[i]? = some n := by
  have hne : n ≠ 0 := Nat.pos_iff_ne_zero.mp hn
  intro len
  induction len using Nat.strong_induction_on with
  | _ len ih =>
    intro i hi
    by_cases hlen : len = 0
    · rw [sizesList] at hi
      simp [hlen] at hi
    · rw [sizesList] at hi ⊢
      have hcond : ¬(n = 0 ∨ len = 0) := by simp [hne, hlen]
      rw [dif_neg hcond] at hi ⊢
      cases i with
      | zero =>
        simp only [List.getElem?_cons_zero, Option.some.injEq]
        simp only [List.length_cons] at hi
        have htail : sizesList n (len - n) ≠ [] := by
          intro hEq
          rw [hEq] at hi
          simp at hi
        have hgt : ¬(len - n) = 0 := by
          intro hEq
          apply htail
          rw [sizesList]
          simp [hEq]
        omega
      | succ j =>
        simp only [List.getElem?_cons_succ]
        simp only [List.length_cons] at hi
        exact ih (len - n) (by omega) j (by omega)

/-- Claim C5: the keyed bulk loader's batch function partitions the keys into
consecutive chunks of the configured size with no overlap, preserving input
order within and across chunks (60 keys at size 25 give sizes 25/25/10), and
its result lists the per-key matches in the original key order. -/
theorem claim5_chunking (n : Nat) (hn : 0 < n) (keys : List String)
    (request : List String → Option (List (Option γ))) (getKey : γ → String) :
    (chunkList n keys).flatten = keys ∧
    (∀ c ∈ chunkList n keys, 0 < c.length ∧ c.length ≤ n) ∧
    (∀ i : Nat, i + 1 < (chunkList n keys).length →
      ((chunkList n keys).map List.length)[i]? = some n) ∧
    (keys.length = 60 → (chunkList 25 keys).map List.length = [25, 25, 10]) ∧
    createLoaderBatchFn n request getKey keys =
      List.map (fun k => List.filter (fun it => decide (getKey it = k))
        (loaderItems n request keys)) keys := by
  refine ⟨chunkList_flatten n hn keys, chunkList_mem_length n hn keys, ?_, ?_, ?_⟩
  · intro i hi
    rw [chunkList_map_length n hn keys]
    apply sizesList_full n hn
    rw [← chunkList_map_length n hn keys]
    simpa using hi
  · intro h60
    rw [chunkList_map_length 25 (by norm_num) keys, h60]
    simp [sizesList]
  · unfold createLoaderBatchFn
    exact demux_eq_map_filter keys getKey (loaderItems n request keys)

/-- A bulk request that resolves to null, for Claim C5's witness. -/
def claim5Req : List String → Option (List (Option Nat)) := fun _ => none

/-- A constant join key, for Claim C5's witness. -/
def claim5Key : Nat → String := fun _ => "k"

/-- Witness for Claim C5 on 60 keys with the default chunk size 25. -/
theorem claim5_witness :
    0 < 25 ∧
    (List.replicate 60 "k").length = 60 ∧
    (chunkList 25 (List.replicate 60 "k")).flatten = List.replicate 60 "k" ∧
    (chunkList 25 (List.replicate 60 "k")).map List.length = [25, 25, 10] ∧
    ((chunkList 25 (List.replicate 60 "k")).map List.length)[0]? = some 25 ∧
    createLoaderBatchFn 25 claim5Req claim5Key (List.replicate 60 "k") =
      List.map (fun k => List.filter (fun it => decide (claim5Key it = k))
        (loaderItems 25 claim5Req (List.replicate 60 "k")))
        (List.replicate 60 "k") :=
  ⟨by decide, by decide,
   (claim5_chunking 25 (by decide) (List.replicate 60 "k") claim5Req claim5Key).1,
   (claim5_chunking 25 (by decide) (List.replicate 60 "k") claim5Req
      claim5Key).2.2.2.1 (by decide),
   (claim5_chunking 25 (by decide) (List.replicate 60 "k") claim5Req
      claim5Key).2.2.1 0 (by
        have h := (claim5_chunking 25 (by decide) (List.replicate 60 "k")
          claim5Req claim5Key).2.2.2.1 (by decide)
        have h2 : (chunkList 25 (List.replicate 60 "k")).length = 3 := by
          have h3 := congrArg List.length h
          simpa using h3
        omega),
   (claim5_chunking 25 (by decide) (List.replicate 60 "k") claim5Req
      claim5Key).2.2.2.2⟩

/-- Claim C6: in the bulk loader's demultiplexing, a requested key with zero
matching items yields an empty list (never null), every key's list is exactly
the fetched items with that computed key in arrival order (so two items
sharing a join key both appear), and an item whose computed key was not
requested appears in no result list. -/
theorem claim6_demux (n : Nat) (keys : List String)
    (request : List String → Option (List (Option γ))) (getKey : γ → String) :
    (∀ (i : Nat) (k : String), keys[i]? = some k →
      (∀ it ∈ loaderItems n request keys, getKey it ≠ k) →
      (createLoaderBatchFn n request getKey keys)[i]? = some []) ∧
    (∀ (i : Nat) (k : String), keys[i]? = some k →
      (createLoaderBatchFn n request getKey keys)[i]? =
        some (List.filter (fun it => decide (getKey it = k))
          (loaderItems n request keys))) ∧
    (∀ it ∈ loaderItems n request keys, getKey it ∉ keys →
      ∀ l ∈ createLoaderBatchFn n request getKey keys, it ∉ l) := by
  have hmain : createLoaderBatchFn n request getKey keys =
      List.map (fun k => List.filter (fun it => decide (getKey it = k))
        (loaderItems n request keys)) keys := by
    unfold createLoaderBatchFn
    exact demux_eq_map_filter keys getKey (loaderItems n request keys)
  refine ⟨?_, ?_, ?_⟩
  · intro i k hi hnone
    rw [hmain, List.getElem?_map, hi, Option.map_some']
    have hfil : List.filter (fun it => decide (getKey it = k))
        (loaderItems n request keys) = [] := by
      rw [List.filter_eq_nil_iff]
      intro it hit
      simpa using hnone it hit
    rw [hfil]
  · intro i k hi
    rw [hmain, List.getElem?_map, hi, Option.map_some']
  · intro it hit hnotin l hl
    rw [hmain] at hl
    obtain ⟨k, hk, hlk⟩ := List.mem_map.mp hl
    intro hmem
    rw [← hlk] at hmem
    have hdec := List.of_mem_filter hmem
    have heq : getKey it = k := of_decide_eq_true hdec
    exact hnotin (heq ▸ hk)

/-- A bulk request for Claim C6's witness: resolves every requested key except
`"c"` to an item, then over-returns an item for the never-requested key `"z"`
and a null entry. -/
def claim6Req : List String → Option (List (Option String)) :=
  fun ks => some (List.map (fun k => some ("it" ++ k))
    (List.filter (fun k => decide (k ≠ "c")) ks) ++ [some "itz", none])

/-- The join key of an item in Claim C6's witness: its name without the
leading `"it"`. -/
def claim6Key : String → String :=
  fun s => String.mk (s.toList.drop 2)

theorem claim6_witness_items :
    loaderItems 25 claim6Req ["a", "b", "c"] = ["ita", "itb", "itz"] := by
  have hch : chunkList 25 ["a", "b", "c"] = [["a", "b", "c"]] := by
    rw [chunkList_cons 25 (by decide),
      show List.drop 25 ["a", "b", "c"] = ([] : List String) from rfl,
      chunkList_nil]
    rfl
  unfold loaderItems
  rw [hch]
  rfl

/-- Witness for Claim C6: requested key `"c"` has zero matches and gets an
empty list, key `"b"`'s list is the arrival-order filter of the fetched items,
and the over-returned item `"itz"` (key `"z"`, never requested) is dropped
from every result list. -/
theorem claim6_witness :
    ((["a", "b", "c"] : List String)[2]? = some "c" ∧
      (createLoaderBatchFn 25 claim6Req claim6Key ["a", "b", "c"])[2]? = some []) ∧
    ((["a", "b", "c"] : List String)[1]? = some "b" ∧
      (createLoaderBatchFn 25 claim6Req claim6Key ["a", "b", "c"])[1]? =
        some (List.filter (fun it => decide (claim6Key it = "b"))
          (loaderItems 25 claim6Req ["a", "b", "c"]))) ∧
    ("itz" ∈ loaderItems 25 claim6Req ["a", "b", "c"] ∧
      claim6Key "itz" ∉ (["a", "b", "c"] : List String) ∧
      ∀ l ∈ createLoaderBatchFn 25 claim6Req claim6Key ["a", "b", "c"],
        "itz" ∉ l) :=
  ⟨⟨by decide,
    (claim6_demux 25 ["a", "b", "c"] claim6Req claim6Key).1 2 "c" (by decide)
      (by rw [claim6_witness_items]; decide)⟩,
   ⟨by decide,
    (claim6_demux 25 ["a", "b", "c"] claim6Req claim6Key).2.1 1 "b" (by decide)⟩,
   ⟨by rw [claim6_witness_items]; decide,
    by decide,
    (claim6_demux 25 ["a", "b", "c"] claim6Req claim6Key).2.2 "itz"
      (by rw [claim6_witness_items]; decide) (by decide)⟩⟩

theorem singleLoaderBatchFn_never_rejects (request : String → Except ε α) :
    ∀ paths : List String,
      singleLoaderBatchFn request paths =
        Except.ok (List.map (fun p =>
          match request p with
          | Except.ok v => Sum.inl v
          | Except.error e => Sum.inr e) paths) := by
  intro paths
  induction paths with
  | nil => rfl
  | cons p rest ih =>
    unfold singleLoaderBatchFn at ih ⊢
    simp only [List.map_cons]
    simp only [jsCatch] at ih ⊢
    cases hr : request p with
    | ok v => simp [promiseAll, hr, ih]
    | error e => simp [promiseAll, hr, ih]

theorem loadOutcomes_eq (request : String → Except ε α) (paths : List String) :
    loadOutcomes request paths = Except.ok (List.map (fun p => request p) paths) := by
  unfold loadOutcomes
  rw [singleLoaderBatchFn_never_rejects]
  simp only [Except.map, List.map_map]
  congr 1
  apply List.map_congr_left
  intro p _
  simp only [Function.comp_apply]
  cases request p <;> rfl

/-- Claim C8: in the single-key loader's batch window, the batch itself never
rejects; a path whose fetch fails has its load outcome reject with that very
failure, and a path whose fetch succeeds resolves with its own value — each
slot depends only on its own request, so one failure never aborts the batch
or any sibling key. -/
theorem claim8_failure_isolation (request : String → Except ε α)
    (paths : List String) :
    loadOutcomes request paths =
      Except.ok (List.map (fun p => request p) paths) ∧
    (∀ (i : Nat) (p : String) (e : ε), paths[i]? = some p →
      request p = Except.error e →
      ∃ l, loadOutcomes request paths = Except.ok l ∧
        l[i]? = some (Except.error e)) ∧
    (∀ (i : Nat) (p : String) (v : α), paths[i]? = some p →
      request p = Except.ok v →
      ∃ l, loadOutcomes request paths = Except.ok l ∧
        l[i]? = some (Except.ok v)) := by
  refine ⟨loadOutcomes_eq request paths, ?_, ?_⟩
  · intro i p e hi hp
    refine ⟨_, loadOutcomes_eq request paths, ?_⟩
    rw [List.getElem?_map, hi, Option.map_some', hp]
  · intro i p v hi hp
    refine ⟨_, loadOutcomes_eq request paths, ?_⟩
    rw [List.getElem?_map, hi, Option.map_some', hp]

/-- The fetch of Claim C8's witness: path `"bad"` rejects, every other path
resolves to itself. -/
def claim8Request : String → Except String String :=
  fun p => if p = "bad" then Except.error "boom" else Except.ok p

/-- Witness for Claim C8 on the window `["good", "bad"]`: the batch fulfils,
`load("bad")` rejects with its own failure and `load("good")` resolves. -/
theorem claim8_witness :
    loadOutcomes claim8Request ["good", "bad"] =
      Except.ok (List.map (fun p => claim8Request p) ["good", "bad"]) ∧
    ((["good", "bad"] : List String)[1]? = some "bad" ∧
      claim8Request "bad" = Except.error "boom" ∧
      ∃ l, loadOutcomes claim8Request ["good", "bad"] = Except.ok l ∧
        l[1]? = some (Except.error "boom")) ∧
    ((["good", "bad"] : List String)[0]? = some "good" ∧
      claim8Request "good" = Except.ok "good" ∧
      ∃ l, loadOutcomes claim8Request ["good", "bad"] = Except.ok l ∧
        l[0]? = some (Except.ok "good")) :=
  ⟨(claim8_failure_isolation claim8Request ["good", "bad"]).1,
   ⟨by decide, by rfl,
    (claim8_failure_isolation claim8Request ["good", "bad"]).2.1 1 "bad" "boom"
      (by decide) (by rfl)⟩,
   ⟨by decide, by rfl,
    (claim8_failure_isolation claim8Request ["good", "bad"]).2.2 0 "good" "good"
      (by decide) (by rfl)⟩⟩
